import Mathlib

/-!
Shallow embedding of `src/pgidocgen/repo.py`: the `Repository` merge/lookup
engine and its per-kind emitters (constant, class, function, property/signal
aggregators, enum/flag), together with the `Property`/`Signal` value objects.

External collaborators (the GIR parser `get_namespace`, `docstring_to_rest`,
`FuncSignature.from_string`/`to_rest_listing`, `unindent`, `gtype_to_rest`,
`parse_stock_icon`) are kept abstract: they are carried as function fields of
`Repo`/`Env`, exactly as the source treats them as opaque imports.

Python dictionaries are modelled as association lists with first-match lookup
and in-place overwrite on update; machine strings are Lean `String`s; `None`
is `Option.none`.
-/

namespace Pgi

/-- Python `str(x)` applied to an optional string attribute: `None` renders
as the string `"None"` (as in `str(obj.__doc__)` in `get_sig`). -/
def pyStr : Option String → String
  | none => "None"
  | some s => s

/-- Python truthiness of an optional string: `None` and `""` are falsy. -/
def pyTruthy : Option String → Bool
  | none => false
  | some s => s ≠ ""

/-- Split a character list at every occurrence of `c` (the pieces keep no
delimiter), as Python `str.split(c)` / Lean `String.splitOn` do. The result
is always non-empty; the inner `[]` case is unreachable. -/
def splitCharsOn (c : Char) : List Char → List (List Char)
  | [] => [[]]
  | x :: xs =>
    match splitCharsOn c xs with
    | [] => [[]]
    | h :: t => if x = c then [] :: h :: t else (x :: h) :: t

/-- `String.splitOn` on a one-character separator, via `splitCharsOn`. -/
def splitOnChar (c : Char) (s : String) : List String :=
  (splitCharsOn c s.toList).map String.mk

/-- Python `sep.join(xs)`. -/
def pyJoin (sep : String) : List String → String
  | [] => ""
  | x :: xs =>
    match xs with
    | [] => x
    | _ :: _ => x ++ sep ++ pyJoin sep xs

/-- The whitespace characters of Python `str.strip()` (ASCII range). -/
def isPySpace (c : Char) : Bool :=
  c = ' ' || c = '\t' || c = '\n' || c = '\r' || c = '\x0b' || c = '\x0c'

/-- Python `str.strip()`: drop leading and trailing whitespace. -/
def pyStrip (s : String) : String :=
  String.mk ((s.toList.dropWhile isPySpace).reverse.dropWhile isPySpace).reverse

/-- Python `str.upper()` (ASCII). -/
def pyUpper (s : String) : String := String.mk (s.toList.map Char.toUpper)

/-- Python `str.lower()` (ASCII). -/
def pyLower (s : String) : String := String.mk (s.toList.map Char.toLower)

/-- Python `s.startswith(p)`. -/
def strStartsWith (s p : String) : Bool := p.toList.isPrefixOf s.toList

/-- Python `str.splitlines`, restricted to `'\n'` line terminators: splits on
newlines and produces no trailing empty line (`"a\nb\n"` gives `["a", "b"]`,
`""` gives `[]`). -/
def pySplitlines (s : String) : List String :=
  if s = "" then []
  else
    let parts := splitOnChar '\n' s
    if parts.getLast? = some "" then parts.dropLast else parts

/-- First-match lookup in an association list: Python `d[k]` / `k in d` for
the dictionaries carried by `Repository`. -/
def dictGet : List (String × α) → String → Option α
  | [], _ => none
  | (k', v) :: rest, k => if k' = k then some v else dictGet rest k

/-- Python `d[k] = v`: overwrites the entry in place when the key is present,
appends it otherwise (insertion order preserved, as for a Python dict). -/
def dictSet : List (String × α) → String → α → List (String × α)
  | [], k, v => [(k, v)]
  | (k', v') :: rest, k, v =>
    if k' = k then (k, v) :: rest else (k', v') :: dictSet rest k v

/-- Python `d1.update(d2)`: sets every entry of `d2` into `d1`, left to
right, so later writers of the same key win. -/
def dictUpdate (d1 d2 : List (String × α)) : List (String × α) :=
  d2.foldl (fun acc kv => dictSet acc kv.1 kv.2) d1

/-- A `(docs, version)` pair of a DocIndex map; the empty string stands for
a missing/falsy version tag (`if version:` in `_fix_docs`). -/
abbrev DocEntry := String × String

/-- The state of a constructed `Repository`: the five DocIndex maps
(`_all`, `_parameters`, `_returns`, `_signals`, `_properties`), the merged
TypeTable `_types`, and the external rewriter `docstring_to_rest` used by
`_fix_docs` (kept abstract, as the source imports it from `.parser`). -/
structure Repo where
  all : List (String × DocEntry)
  parameters : List (String × DocEntry)
  returns : List (String × DocEntry)
  signals : List (String × DocEntry)
  properties : List (String × DocEntry)
  types : List (String × String)
  docstring_to_rest : List (String × String) → Option String → String → String

/-- `Repository._fix_docs`: rewrite the raw text through the external
cross-reference rewriter, then append the version annotation when a version
tag is recorded. -/
def fix_docs (repo : Repo) (d : String) (version : String)
    (current : Option String) : String :=
  let rest := repo.docstring_to_rest repo.types current d
  if version ≠ "" then rest ++ "\n\n.. versionadded:: " ++ version ++ "\n"
  else rest

/-- `Repository.lookup_attr_docs`: docs for a namespace attribute, empty
string when the name is absent from `_all`. -/
def lookup_attr_docs (repo : Repo) (name : String) (current : Option String) :
    String :=
  match dictGet repo.all name with
  | some (docs, version) => fix_docs repo docs version current
  | none => ""

/-- `Repository.lookup_return_docs`. -/
def lookup_return_docs (repo : Repo) (name : String)
    (current : Option String) : String :=
  match dictGet repo.returns name with
  | some (docs, version) => fix_docs repo docs version current
  | none => ""

/-- `Repository.lookup_parameter_docs`. -/
def lookup_parameter_docs (repo : Repo) (name : String)
    (current : Option String) : String :=
  match dictGet repo.parameters name with
  | some (docs, version) => fix_docs repo docs version current
  | none => ""

/-- Python's `\s` class (the characters `re.split("\.[\s$]", ...)` accepts
after the period), plus the literal `$` that the character class also
contains. -/
def isSentenceBreak (c : Char) : Bool :=
  c = ' ' || c = '\t' || c = '\n' || c = '\r' || c = '\x0b' || c = '\x0c' ||
    c = '$'

/-- One step of `re.split("\.[\s$]", docs, 1)` over the character list:
`some (before, after)` splits at the first period followed by a break
character (both delimiter characters consumed), `none` when no such
boundary exists. -/
def splitSentenceChars : List Char → Option (List Char × List Char)
  | [] => none
  | x :: xs =>
    match xs with
    | [] => none
    | c :: rest2 =>
      if x = '.' ∧ isSentenceBreak c = true then some ([], rest2)
      else (splitSentenceChars xs).map fun p => (x :: p.1, p.2)

/-- `re.split("\.[\s$]", docs, 1)` on strings. -/
def splitSentence (s : String) : Option (String × String) :=
  (splitSentenceChars s.toList).map fun p =>
    (String.mk p.1, String.mk p.2)

/-- The raw text short mode hands to `_fix_docs`: the first sentence with
its period re-appended, or the whole text when no boundary exists. -/
def shortRaw (docs : String) : String :=
  match splitSentence docs with
  | some (first, _) => first ++ "."
  | none => docs

/-- `Repository.lookup_signal_docs`: full mode keeps the recorded version
tag; short mode truncates at the first sentence boundary and passes an
empty version. -/
def lookup_signal_docs (repo : Repo) (name : String) (short : Bool)
    (current : Option String) : String :=
  match dictGet repo.signals name with
  | some (docs, version) =>
    if short then
      match splitSentence docs with
      | some (first, _) => fix_docs repo (first ++ ".") "" current
      | none => fix_docs repo docs "" current
    else fix_docs repo docs version current
  | none => ""

/-- `Repository.lookup_prop_docs`. -/
def lookup_prop_docs (repo : Repo) (name : String) (current : Option String) :
    String :=
  match dictGet repo.properties name with
  | some (docs, version) => fix_docs repo docs version current
  | none => ""

/-- A parsed `FuncSignature` (external collaborator, `.funcsig`): the only
observable this core uses is `to_rest_listing(self, name, current)`. -/
structure FuncSignature where
  to_rest_listing : Repo → String → Option String → String

/-- The external collaborators `parse_function`/`parse_constant` call:
`FuncSignature.from_string`, `util.unindent`, `gtkstock.parse_stock_icon`
and `util.gtype_to_rest` (types rendered from a GType token string). -/
structure Env where
  from_string : String → String → Option FuncSignature
  unindent : String → String
  stock_icon : String → String
  gtype_to_rest : String → String

/-- A live callable as `parse_function` observes it: its `__doc__` attribute
(`none` = Python `None`) and the `util.is_staticmethod`/`util.is_classmethod`
predicates on it. -/
structure PyFunc where
  doc : Option String
  is_static : Bool
  is_classm : Bool

/-- The result of `getattr(base, func_name, None)` on one ancestor of
`owner.__mro__[1:]`: either the probe raises `NotImplementedError`
(a pgi stub, skipped), or it yields an object whose `__doc__` is `doc`
(the `getattr` default `None` is the object whose `__doc__` is `none`). -/
inductive BaseAttr where
  | raisesNI
  | attr (doc : Option String)

/-- The owner class of a method: `__module__`, `__name__`, and for each base
of `owner.__mro__[1:]` (in MRO order) the outcome of looking up the method's
name on it. -/
structure OwnerCls where
  module : String
  name : String
  mro_attrs : List BaseAttr

/-- `current_rst_target` as `parse_function` computes it. -/
def currentOf (owner : Option OwnerCls) : Option String :=
  owner.map fun o => o.module ++ "." ++ o.name

/-- The final segment of a dotted qualified name (`name.split(".")[-1]`). -/
def lastSegment (name : String) : String :=
  (splitOnChar '.' name).getLastD ""

/-- The inner `get_sig` helper of `parse_function`: take the first line of
`str(obj.__doc__)` and hand it to `FuncSignature.from_string` together with
the bare function name. -/
def get_sig (env : Env) (func_name : String) (doc : Option String) :
    Option FuncSignature :=
  let d := pyStr doc
  let first_line := if d ≠ "" then (pySplitlines d).headD "" else ""
  env.from_string func_name first_line

/-- The MRO fallback loop of `parse_function` (lines 377-386): walk the
ancestors, skip `NotImplementedError`, stop at the first base whose
attribute yields a parseable signature. -/
def mro_sig (env : Env) (func_name : String) : List BaseAttr →
    Option FuncSignature
  | [] => none
  | .raisesNI :: rest => mro_sig env func_name rest
  | .attr d :: rest =>
    match get_sig env func_name d with
    | some s => some s
    | none => mro_sig env func_name rest

/-- `"%s = %s\n" % (func_name, name)`: the bare alias emitted when the
callable keeps (or is left to) its own docstring. -/
def bare_alias (func_name name : String) : String :=
  func_name ++ " = " ++ name ++ "\n"

/-- The method template of the no-signature/GIR-docs branch
(lines 399-405): alias plus a trailing raw-string block. -/
def method_gir_render (func_name name docs : String) : String :=
  "\n" ++ func_name ++ " = " ++ name ++ "\nr'''\n" ++ docs ++ "\n'''\n"

/-- The free-function template of the no-signature/GIR-docs branch
(lines 410-416): alias plus a `__doc__` reassignment to the GIR text. -/
def free_gir_render (func_name name docs : String) : String :=
  "\n" ++ func_name ++ " = " ++ name ++ "\n" ++ func_name ++
    ".__doc__ = r'''\n" ++ docs ++ "\n'''\n"

/-- The docstring body beyond the signature line (`user_docstring`,
lines 424-427): drop the first line, then leading blank lines. -/
def user_docstring_of (doc : Option String) : String :=
  let lines := (pySplitlines (pyStr doc)).drop 1
  let lines := lines.dropWhile fun l => pyStrip l = ""
  pyJoin "\n" lines

/-- The rendered doc text of the valid-signature path (lines 429-442):
the signature listing, then the user body if any, else the GIR docs
if any. -/
def sig_docs (env : Env) (repo : Repo) (s : FuncSignature) (name : String)
    (current : Option String) (doc : Option String) : String :=
  let user_docstring := user_docstring_of doc
  let docs := splitOnChar '\n' (s.to_rest_listing repo name current)
  let docs :=
    if user_docstring ≠ "" then docs ++ ["", env.unindent user_docstring]
    else if lookup_attr_docs repo name current ≠ "" then
      docs ++ ["", lookup_attr_docs repo name current]
    else docs
  pyJoin "\n" docs

/-- The final method template (lines 457-462), with the
`staticmethod(...)` wrap of line 455 already applied to `name`. -/
def method_final_render (func_name name docs : String) : String :=
  "\n" ++ func_name ++ " = " ++ name ++ "\nr'''\n" ++ docs ++ "\n'''\n"

/-- The final free-function template (lines 464-470): the `__doc__`
reassignment targets `name` here, not `func_name`. -/
def free_final_render (func_name name docs : String) : String :=
  "\n" ++ func_name ++ " = " ++ name ++ "\n" ++ name ++
    ".__doc__ = r'''\n" ++ docs ++ "\n'''\n"

/-- The valid-signature emission (lines 444-470): methods get the
`staticmethod(...)` wrap when applicable and the trailing raw-string block;
free functions get the `__doc__` reassignment. -/
def final_render (name func_name : String) (owner : Option OwnerCls)
    (obj : PyFunc) (docs : String) : String :=
  match owner with
  | some _ =>
    let name2 :=
      if obj.is_static || obj.is_classm then "staticmethod(" ++ name ++ ")"
      else name
    method_final_render func_name name2 docs
  | none => free_final_render func_name name docs

/-- `Repository.parse_function`: returns the emitted Python code for the
callable, or `none` for the silent skip of an empty final name segment. -/
def parse_function (env : Env) (repo : Repo) (name : String)
    (owner : Option OwnerCls) (obj : PyFunc) : Option String :=
  let is_method := owner.isSome
  let current_rst_target := currentOf owner
  if lastSegment name = "" then none
  else
    let func_name := lastSegment name
    let sig0 := get_sig env func_name obj.doc
    if sig0.isNone && pyTruthy obj.doc then
      some (bare_alias func_name name)
    else
      let sig :=
        match sig0, owner with
        | none, some o => mro_sig env func_name o.mro_attrs
        | s, _ => s
      match sig with
      | none =>
        if lookup_attr_docs repo name current_rst_target = "" then
          some (bare_alias func_name name)
        else if is_method then
          some (method_gir_render func_name name
            (lookup_attr_docs repo name current_rst_target))
        else
          some (free_gir_render func_name name
            (lookup_attr_docs repo name current_rst_target))
      | some s =>
        some (final_render name func_name owner obj
          (sig_docs env repo s name current_rst_target obj.doc))

/-- Python `s[:1].isdigit()`: true when the string is non-empty and its
first character is a digit. -/
def firstCharIsDigit (s : String) : Bool :=
  match s.toList with
  | [] => false
  | c :: _ => c.isDigit

/-- `Repository.parse_constant`: `none` for the silent skip of a
digit-leading bare name, otherwise the aliasing declaration with the
resolved docs (plus the stock-icon snippet under the `Gtk.STOCK_`
prefix). -/
def parse_constant (env : Env) (repo : Repo) (name : String) :
    Option String :=
  if firstCharIsDigit (lastSegment name) then none
  else
    let docs := lookup_attr_docs repo name none
    let docs :=
      if strStartsWith name "Gtk.STOCK_" then docs ++ env.stock_icon name
      else docs
    some ("\n" ++ lastSegment name ++ " = " ++ name ++
      "\nr'''\n.. fake comment to help sphinx\n\n" ++ docs ++ "\n'''\n\n")

/-- Insert into a sorted list, before the first element it is `le` to:
the comparison step of Python `list.sort()`. -/
def insertSorted (le : α → α → Bool) (x : α) : List α → List α
  | [] => [x]
  | y :: ys => if le x y then x :: y :: ys else y :: insertSorted le x ys

/-- Insertion sort: the model of Python `list.sort()` (ascending). -/
def pySort (le : α → α → Bool) (l : List α) : List α :=
  l.foldr (insertSorted le) []

/-- Lexicographic comparison of character lists by code point: Python `<=`
on `str` (restricted to the code-point order both languages share). -/
def charsLe : List Char → List Char → Bool
  | [], _ => true
  | _ :: _, [] => false
  | a :: as, b :: bs =>
    if a.toNat < b.toNat then true
    else if a.toNat = b.toNat then charsLe as bs
    else false

/-- Python `a <= b` on strings. -/
def strLe (a b : String) : Bool := charsLe a.toList b.toList

/-- Python's ordering on the `(int(attr), attr_name)` tuples that
`values.sort()` sorts: lexicographic on the pair. -/
def tupLe (a b : Int × String) : Bool :=
  decide (a.1 < b.1) || (decide (a.1 = b.1) && strLe a.2 b.2)

/-- Python `dir(obj)` over a modelled attribute table: the attribute names,
deduplicated and sorted. -/
def dirNames (attrs : List (String × α)) : List String :=
  pySort strLe (attrs.map Prod.fst).eraseDups

/-- One attribute of a live enum/flag class, as `parse_flags` observes it:
whether `isinstance(attr, obj)` holds and `int(attr)`. -/
structure FlagAttrVal where
  isInstance : Bool
  intVal : Int

/-- A live enum/flag class: `__name__`, the module and name of
`__bases__[0]`, whether the class is one of the two special-cased GObject
base types (`GObject.GFlags`/`GObject.GEnum`), and its attribute table. -/
structure FlagsCls where
  name : String
  base_module : String
  base_name : String
  isGBase : Bool
  attrs : List (String × FlagAttrVal)

/-- The header of the emitted enum/flag class (lines 312-317). -/
def flags_header (repo : Repo) (name : String) (obj : FlagsCls) : String :=
  "\nclass " ++ obj.name ++ "(" ++ obj.base_module ++ "." ++ obj.base_name ++
    "):\n    r'''\n" ++ lookup_attr_docs repo name none ++ "\n    '''\n"

/-- The member-collection loop of `parse_flags` (lines 319-333): walk
`dir(obj)`, keep only all-uppercase names; a name with a shadow (`_`-prefixed)
sibling goes to `escaped`, otherwise a member whose value is an instance of
the class goes to `values` as `(int(attr), attr_name)`. -/
def flag_collect (obj : FlagsCls) : List String × List (Int × String) :=
  (dirNames obj.attrs).foldl
    (fun acc attr_name =>
      if pyUpper attr_name ≠ attr_name then acc
      else
        match dictGet obj.attrs attr_name with
        | none => acc
        | some attr =>
          if (dictGet obj.attrs ("_" ++ attr_name)).isSome then
            (acc.1 ++ [attr_name], acc.2)
          else if !attr.isInstance then acc
          else (acc.1, acc.2 ++ [(attr.intVal, attr_name)]))
    ([], [])

/-- One emitted member line with its per-member docs (lines 337-341);
the doc key is the qualified name dotted with the lower-cased member. -/
def flag_member_render (repo : Repo) (name : String) (p : Int × String) :
    String :=
  "    " ++ p.2 ++ " = " ++ toString p.1 ++ "\n    r'''\n" ++
    lookup_attr_docs repo (name ++ "." ++ pyLower p.2) none ++ "\n'''\n"

/-- One late rebinding line for an escaped member (lines 344-345). -/
def setattr_render (nm v : String) : String :=
  "setattr(" ++ nm ++ ", '" ++ v ++ "', " ++ nm ++ "._" ++ v ++ ")\n"

/-- `Repository.parse_flags`: the two GObject base types re-alias the
canonical ones; any other enum/flag class is emitted as a class header,
its sorted non-escaped members, then the `setattr` rebindings of the
escaped members. -/
def parse_flags (repo : Repo) (name : String) (obj : FlagsCls) : String :=
  if obj.isGBase then obj.name ++ " = GObject." ++ obj.name
  else
    let code := flags_header repo name obj
    let escaped := (flag_collect obj).1
    let values := pySort tupLe (flag_collect obj).2
    let code := values.foldl
      (fun c p => c ++ flag_member_render repo name p) code
    let nm := obj.name
    escaped.foldl (fun c v => c ++ setattr_render nm v) code

/-- The `Property` value object (lines 22-46). The source stores the raw
`spec.flags & FLAG` integers in `readable`/`writable`/`construct` and only
ever reads their truthiness (in `flags_string`); the model stores that
truthiness as a `Bool`. -/
structure Property where
  name : String
  attr_name : String
  type_desc : String
  readable : Bool
  writable : Bool
  construct : Bool
  short_desc : String
  desc : String
  deriving DecidableEq

/-- `Property.flags_string`: append `"r"`, `"w"`, `"c"` in that order for
the flags that are set, then join with `"/"`. -/
def flags_string (p : Property) : String :=
  let flags : List String := []
  let flags := if p.readable then flags ++ ["r"] else flags
  let flags := if p.writable then flags ++ ["w"] else flags
  let flags := if p.construct then flags ++ ["c"] else flags
  pyJoin "/" flags

/-- The `Signal` value object (lines 49-57). -/
structure Signal where
  name : String
  params : String
  ret : String
  desc : String
  short_desc : String
  deriving DecidableEq

/-- One entry of a live class's `signals` descriptor. -/
structure SigSpec where
  name : String
  param_types : List String
  return_type : String

/-- One entry of a live class's `props` descriptor: `owner_is_obj` models
`spec.owner_type.pytype is obj`. -/
structure PropSpec where
  name : String
  value_type : String
  flags : Nat
  blurb : Option String
  owner_is_obj : Bool

/-- A live class as the property/signal aggregators observe it: `none` for
a descriptor means `hasattr` fails; a `props` entry of `some none` models
`getattr(obj.props, attr, None)` yielding a falsy spec. -/
structure LiveObj where
  module : String
  name : String
  signals : Option (List (String × SigSpec))
  props : Option (List (String × Option PropSpec))

/-- A dynamically-typed Python return value: `parse_signals` returns either
the string `""` or a list of `Signal`s. -/
inductive PyValue where
  | ofStr (s : String)
  | ofList (l : List Signal)
  deriving DecidableEq

/-- `Repository.parse_signals` (lines 235-262): the empty *string* when the
class has no `signals` descriptor, else the list of `Signal` objects built
from the non-underscore attributes of the descriptor. -/
def parse_signals (env : Env) (repo : Repo) (obj : LiveObj) : PyValue :=
  let current := obj.module ++ "." ++ obj.name
  match obj.signals with
  | none => .ofStr ""
  | some sigAttrs =>
    let sigs := (dirNames sigAttrs).foldl
      (fun acc attr =>
        if strStartsWith attr "_" then acc
        else
          match dictGet sigAttrs attr with
          | none => acc
          | some sig => acc ++ [sig])
      []
    let result := sigs.foldl
      (fun acc sig =>
        let doc_key := obj.module ++ "." ++ obj.name ++ "." ++ sig.name
        let desc := lookup_signal_docs repo doc_key false (some current)
        let short_desc := lookup_signal_docs repo doc_key true (some current)
        let params := pyJoin ", "
          (sig.param_types.map env.gtype_to_rest)
        let ret := env.gtype_to_rest sig.return_type
        acc ++ [Signal.mk sig.name params ret desc short_desc])
      []
    .ofList result

/-- `GObject.ParamFlags.READABLE`. -/
def PARAM_READABLE : Nat := 1
/-- `GObject.ParamFlags.WRITABLE`. -/
def PARAM_WRITABLE : Nat := 2
/-- `GObject.ParamFlags.CONSTRUCT`. -/
def PARAM_CONSTRUCT : Nat := 4

/-- `Repository.parse_properties` (lines 264-300): the empty *list* when the
class has no `props` descriptor; otherwise the specs owned by the class
itself, turned into `Property` objects with the doc/blurb fallback. -/
def parse_properties (env : Env) (repo : Repo) (obj : LiveObj) :
    List Property :=
  let current := obj.module ++ "." ++ obj.name
  match obj.props with
  | none => []
  | some propAttrs =>
    let specs := (dirNames propAttrs).foldl
      (fun acc attr =>
        if strStartsWith attr "_" then acc
        else
          match dictGet propAttrs attr with
          | none => acc
          | some none => acc
          | some (some spec) =>
            if !spec.owner_is_obj then acc else acc ++ [(attr, spec)])
      ([] : List (String × PropSpec))
    specs.foldl
      (fun props p =>
        let type_desc := env.gtype_to_rest p.2.value_type
        let readable := p.2.flags.land PARAM_READABLE != 0
        let writable := p.2.flags.land PARAM_WRITABLE != 0
        let construct := p.2.flags.land PARAM_CONSTRUCT != 0
        let short_desc :=
          match p.2.blurb with
          | some b => fix_docs repo b "" (some current)
          | none => ""
        let doc_name := obj.module ++ "." ++ obj.name ++ "." ++ p.2.name
        let looked := lookup_prop_docs repo doc_name (some current)
        let desc := if looked ≠ "" then looked else short_desc
        props ++ [Property.mk p.2.name p.1 type_desc readable writable
          construct short_desc desc])
      []

/-- A namespace key: name and version, as `get_namespace` is keyed. -/
abbrev NsKey := String × String

/-- What `Repository.__init__` consumes from one loaded namespace for the
dependency traversal and the type merge. -/
structure GiNamespace where
  dependencies : List NsKey
  types : List (String × String)

/-- The dependency work-list loop of `Repository.__init__` (lines 96-104):
pop the last key, skip it when already loaded, otherwise load it (append to
the insertion-ordered `loaded` dict) and push its dependencies. `fuel`
counts loop iterations; the termination theorem gives a sufficient bound. -/
def load_dependencies (get_ns : NsKey → GiNamespace) :
    Nat → List NsKey → List NsKey → List NsKey × List NsKey
  | 0, loaded, toLoad => (loaded, toLoad)
  | fuel + 1, loaded, toLoad =>
    match toLoad.getLast? with
    | none => (loaded, [])
    | some key =>
      let rest := toLoad.dropLast
      if key ∈ loaded then load_dependencies get_ns fuel loaded rest
      else load_dependencies get_ns fuel (loaded ++ [key])
        (rest ++ (get_ns key).dependencies)

/-- The type-table merge of `Repository.__init__` (lines 106-110): fold
every loaded dependency's type map into an empty dict (in load order), then
overlay the root namespace's own map last. -/
def merge_types (get_ns : NsKey → GiNamespace) (root : GiNamespace)
    (loadedKeys : List NsKey) : List (String × String) :=
  dictUpdate
    (loadedKeys.foldl (fun acc k => dictUpdate acc (get_ns k).types) [])
    root.types

/-! Concrete fixtures used to instantiate the theorems below. -/

/-- An environment whose signature parser never parses and whose text
collaborators are the identity / empty functions. -/
def env0 : Env where
  from_string := fun _ _ => none
  unindent := fun s => s
  stock_icon := fun _ => ""
  gtype_to_rest := fun s => s

/-- An environment whose signature parser accepts exactly the first line
`"sig()"`, yielding a signature whose rendered listing is `"LIST"`. -/
def envSig : Env where
  from_string := fun _ l =>
    if l = "sig()" then some ⟨fun _ _ _ => "LIST"⟩ else none
  unindent := fun s => s
  stock_icon := fun _ => ""
  gtype_to_rest := fun s => s

/-- A repository with empty doc maps and the identity rewriter. -/
def repo0 : Repo where
  all := []
  parameters := []
  returns := []
  signals := []
  properties := []
  types := []
  docstring_to_rest := fun _ _ d => d

/-- `repo0` with one GIR doc entry (no version tag) for `NS.f`. -/
def repoGir : Repo := { repo0 with all := [("NS.f", ("GIRDOC", ""))] }

/-- `repo0` with two signal doc entries: one version-tagged text without a
sentence boundary, one boundary-carrying text without a version tag. -/
def repoSig : Repo :=
  { repo0 with signals :=
      [("N.C.s", ("Hello world", "1.0")), ("N.C.t", ("One. Two.", ""))] }

/-- A live class with neither a `signals` nor a `props` descriptor. -/
def liveBare : LiveObj where
  module := "N"
  name := "C"
  signals := none
  props := none

/-- A live class with a one-signal `signals` descriptor and no `props`. -/
def liveSig : LiveObj where
  module := "N"
  name := "C"
  signals := some [("s", ⟨"s", ["gint"], "gboolean"⟩)]
  props := none

/-- The enum of the spec's §8 example: member `A` escaped (its true value 2
stored under the shadow name `_A`) and member `B = 2`. -/
def flagsEx : FlagsCls where
  name := "F"
  base_module := "GObject"
  base_name := "GEnum"
  isGBase := false
  attrs := [("A", ⟨true, 1⟩), ("_A", ⟨true, 2⟩), ("B", ⟨true, 2⟩)]

/-- A diamond-shaped namespace store: `B` and `C` both depend on `D`. -/
def depsDiamond : NsKey → GiNamespace := fun k =>
  if k = ("B", "1") then ⟨[("D", "1")], [("T", "depB")]⟩
  else if k = ("C", "1") then ⟨[("D", "1")], [("U", "depC")]⟩
  else if k = ("D", "1") then ⟨[], [("T", "depD")]⟩
  else ⟨[], []⟩

/-- C5: for every qualified name absent from the corresponding DocIndex map,
each of the five lookup operations (`lookup_attr_docs`, `lookup_return_docs`,
`lookup_parameter_docs`, `lookup_signal_docs`, `lookup_prop_docs`) returns
the empty string (and, being total functions, never raises). -/
theorem lookup_absent_returns_empty (repo : Repo) (name : String)
    (current : Option String) (short : Bool) :
    (dictGet repo.all name = none →
      lookup_attr_docs repo name current = "") ∧
    (dictGet repo.returns name = none →
      lookup_return_docs repo name current = "") ∧
    (dictGet repo.parameters name = none →
      lookup_parameter_docs repo name current = "") ∧
    (dictGet repo.signals name = none →
      lookup_signal_docs repo name short current = "") ∧
    (dictGet repo.properties name = none →
      lookup_prop_docs repo name current = "") := by
  refine ⟨fun h => ?_, fun h => ?_, fun h => ?_, fun h => ?_, fun h => ?_⟩ <;>
    simp [lookup_attr_docs, lookup_return_docs, lookup_parameter_docs,
      lookup_signal_docs, lookup_prop_docs, h]

/-- Witness for C5 at the empty repository and the name `GObject.Value`. -/
theorem lookup_absent_returns_empty_witness :
    lookup_attr_docs repo0 "GObject.Value" none = "" ∧
    lookup_return_docs repo0 "GObject.Value" none = "" ∧
    lookup_parameter_docs repo0 "GObject.Value" none = "" ∧
    lookup_signal_docs repo0 "GObject.Value" true none = "" ∧
    lookup_prop_docs repo0 "GObject.Value" none = "" := by
  have h := lookup_absent_returns_empty repo0 "GObject.Value" none true
  exact ⟨h.1 rfl, h.2.1 rfl, h.2.2.1 rfl, h.2.2.2.1 rfl, h.2.2.2.2 rfl⟩

/-- C8: a constant whose bare name starts with a digit and a function whose
final name segment is empty are both skipped silently: the emitters return
`none` (Python `None`), raising no error. -/
theorem skip_unsuitable_names (env : Env) (repo : Repo) (name : String)
    (owner : Option OwnerCls) (obj : PyFunc) :
    (firstCharIsDigit (lastSegment name) = true →
      parse_constant env repo name = none) ∧
    (lastSegment name = "" → parse_function env repo name owner obj = none) := by
  constructor
  · intro h
    simp [parse_constant, h]
  · intro h
    simp [parse_function, h]

/-- Witness for C8 at the digit-leading constant `Gtk.9X` and the
empty-final-segment callable name `GLib.IConv.`. -/
theorem skip_unsuitable_names_witness :
    parse_constant env0 repo0 "Gtk.9X" = none ∧
    parse_function env0 repo0 "GLib.IConv." none (PyFunc.mk none false false) =
      none := by
  refine ⟨(skip_unsuitable_names env0 repo0 "Gtk.9X" none
      (PyFunc.mk none false false)).1 (by decide),
    (skip_unsuitable_names env0 repo0 "GLib.IConv." none
      (PyFunc.mk none false false)).2 (by decide)⟩

/-- C9: for every `Property` value object, `flags_string` is the
separator-joined concatenation of exactly the present flags among
`"r"`, `"w"`, `"c"`, in that fixed relative order. -/
theorem flags_string_fixed_order (p : Property) :
    flags_string p = pyJoin "/"
      ((([("r", p.readable), ("w", p.writable), ("c", p.construct)]).filter
        (fun x => x.2)).map (fun x => x.1)) := by
  obtain ⟨n, a, t, r, w, c, s, d⟩ := p
  cases r <;> cases w <;> cases c <;> rfl

/-- C10: `parse_signals` returns the empty *string* when the live object has
no `signals` descriptor, `parse_properties` returns the empty *list* when it
has no `props` descriptor, and `parse_signals` yields a `Signal` list
exactly when the `signals` descriptor exists. -/
theorem aggregator_empty_sentinels (env : Env) (repo : Repo) (obj : LiveObj) :
    (obj.signals = none → parse_signals env repo obj = .ofStr "") ∧
    (obj.props = none → parse_properties env repo obj = []) ∧
    (∀ s, obj.signals = some s →
      ∃ l, parse_signals env repo obj = .ofList l) := by
  refine ⟨fun h => ?_, fun h => ?_, fun s h => ?_⟩
  · simp [parse_signals, h]
  · simp [parse_properties, h]
  · simp only [parse_signals, h]
    exact ⟨_, rfl⟩

/-- Witness for C10 at a descriptor-less live class and a one-signal
live class. -/
theorem aggregator_empty_sentinels_witness :
    parse_signals env0 repo0 liveBare = .ofStr "" ∧
    parse_properties env0 repo0 liveBare = [] ∧
    ∃ l, parse_signals env0 repo0 liveSig = .ofList l := by
  refine ⟨(aggregator_empty_sentinels env0 repo0 liveBare).1 rfl,
    (aggregator_empty_sentinels env0 repo0 liveBare).2.1 rfl,
    (aggregator_empty_sentinels env0 repo0 liveSig).2.2 _ rfl⟩

/-- C2 counterexample: a free function whose docstring first line parses as
a signature and which has a body beyond it is NOT aliased bare and returned
immediately: the listing is rendered and the body appended. -/
theorem sig_with_body_counterexample :
    parse_function envSig repo0 "NS.f" none
        (PyFunc.mk (some "sig()\nbody") false false) =
      some "\nf = NS.f\nNS.f.__doc__ = r'''\nLIST\n\nbody\n'''\n" ∧
    some "\nf = NS.f\nNS.f.__doc__ = r'''\nLIST\n\nbody\n'''\n" ≠
      some (bare_alias "f" "NS.f") := by
  exact ⟨by decide, by decide⟩

/-- C2 (amended): it is when NO signature parses from the first line of the
object's own docstring but the docstring is truthy (present and non-empty)
that `parse_function` treats the callable as having a wholly new docstring
and returns the bare alias immediately — for every owner and repository, so
no MRO walk, no GIR lookup and no listing takes part. -/
theorem sig_with_body_amended (env : Env) (repo : Repo) (name : String)
    (owner : Option OwnerCls) (obj : PyFunc)
    (hfn : lastSegment name ≠ "")
    (hsig : get_sig env (lastSegment name) obj.doc = none)
    (hdoc : pyTruthy obj.doc = true) :
    parse_function env repo name owner obj =
      some (bare_alias (lastSegment name) name) := by
  simp [parse_function, hfn, hsig, hdoc]

/-- Witness for the amended C2: an unparseable non-empty docstring gives the
bare alias even with a GIR doc present and an owner supplied. -/
theorem sig_with_body_amended_witness :
    parse_function env0 repoGir "NS.f" (some (OwnerCls.mk "M" "O" []))
        (PyFunc.mk (some "hello") false false) =
      some (bare_alias (lastSegment "NS.f") "NS.f") := by
  exact sig_with_body_amended env0 repoGir "NS.f"
    (some (OwnerCls.mk "M" "O" [])) (PyFunc.mk (some "hello") false false)
    (by decide) rfl (by decide)

/-- A successful sentence split decomposes its input into the part before
the boundary, the period, one break character, and the remainder. -/
theorem splitSentenceChars_decomp :
    ∀ l a b, splitSentenceChars l = some (a, b) →
      ∃ c, isSentenceBreak c = true ∧ l = a ++ '.' :: c :: b := by
  intro l
  induction l with
  | nil => intro a b h; simp [splitSentenceChars] at h
  | cons x xs ih =>
    intro a b h
    cases xs with
    | nil => simp [splitSentenceChars] at h
    | cons c rest2 =>
      rw [splitSentenceChars] at h
      split at h
      case isTrue hc =>
        obtain ⟨rfl, rfl⟩ : [] = a ∧ rest2 = b := by
          injection h with h2
          injection h2 with h3 h4
          exact ⟨h3, h4⟩
        exact ⟨c, hc.2, by simp [hc.1]⟩
      case isFalse hc =>
        rw [Option.map_eq_some'] at h
        obtain ⟨p, hp, hpe⟩ := h
        obtain ⟨ha, hb⟩ : x :: p.1 = a ∧ p.2 = b := by
          injection hpe with h3 h4
          exact ⟨h3, h4⟩
        obtain ⟨c', hc', hl⟩ := ih p.1 p.2 hp
        exact ⟨c', hc', by rw [← ha, ← hb, hl]; rfl⟩

/-- `splitSentence` on strings decomposes the raw doc text likewise. -/
theorem splitSentence_decomp (s first rest : String)
    (h : splitSentence s = some (first, rest)) :
    ∃ c, isSentenceBreak c = true ∧
      s.toList = first.toList ++ '.' :: c :: rest.toList := by
  rw [splitSentence, Option.map_eq_some'] at h
  obtain ⟨p, hp, hpe⟩ := h
  obtain ⟨c, hc, hl⟩ := splitSentenceChars_decomp s.toList p.1 p.2 hp
  obtain ⟨h1, h2⟩ : String.mk p.1 = first ∧ String.mk p.2 = rest := by
    injection hpe with h3 h4
    exact ⟨h3, h4⟩
  exact ⟨c, hc, by rw [← h1, ← h2]; exact hl⟩

/-- `(a ++ b).toList` is the concatenation of the character lists. -/
theorem strToList_append : ∀ a b : String,
    (a ++ b).toList = a.toList ++ b.toList
  | ⟨_⟩, ⟨_⟩ => rfl

/-- C7 counterexample: for the version-tagged signal entry `N.C.s` with
text `"Hello world"` no sentence boundary exists, yet the short result does
not equal the full result: full mode appends the version annotation. -/
theorem signal_short_counterexample :
    splitSentence "Hello world" = none ∧
    lookup_signal_docs repoSig "N.C.s" true none = "Hello world" ∧
    lookup_signal_docs repoSig "N.C.s" false none =
      "Hello world\n\n.. versionadded:: 1.0\n" ∧
    lookup_signal_docs repoSig "N.C.s" true none ≠
      lookup_signal_docs repoSig "N.C.s" false none := by
  exact ⟨by decide, by decide, by decide, by decide⟩

/-- C7 (amended): short mode truncates the raw doc text, before rewriting,
at the first period followed by whitespace (or by a literal `$`, which the
regex class `[\s$]` also accepts): the truncated raw text is always a
prefix of the raw doc text, and the short result is the truncation rendered
with an empty version tag, so it equals the full-mode result whenever no
boundary exists and no version tag is recorded (a recorded version tag is
appended in full mode only, breaking exact equality). -/
theorem signal_short_amended (repo : Repo) (name docs version : String)
    (current : Option String)
    (h : dictGet repo.signals name = some (docs, version)) :
    (∃ t, docs.toList = (shortRaw docs).toList ++ t) ∧
    lookup_signal_docs repo name true current =
      fix_docs repo (shortRaw docs) "" current ∧
    (splitSentence docs = none → version = "" →
      lookup_signal_docs repo name true current =
        lookup_signal_docs repo name false current) := by
  refine ⟨?_, ?_, ?_⟩
  · cases hs : splitSentence docs with
    | none => exact ⟨[], by simp [shortRaw, hs]⟩
    | some p =>
      obtain ⟨c, _, hl⟩ := splitSentence_decomp docs p.1 p.2 (by rw [hs])
      refine ⟨c :: p.2.toList, ?_⟩
      rw [shortRaw, hs, strToList_append, hl]
      simp
  · cases hs : splitSentence docs with
    | none => simp [lookup_signal_docs, h, hs, shortRaw]
    | some p => simp [lookup_signal_docs, h, hs, shortRaw]
  · intro hnone hv
    simp [lookup_signal_docs, h, hnone, hv, fix_docs]

/-- Witness for the amended C7 at the boundary-carrying, untagged signal
entry `N.C.t` of the concrete repository. -/
theorem signal_short_amended_witness :
    (∃ t, ("One. Two.").toList = (shortRaw "One. Two.").toList ++ t) ∧
    lookup_signal_docs repoSig "N.C.t" true none =
      fix_docs repoSig (shortRaw "One. Two.") "" none ∧
    (splitSentence "One. Two." = none → "" = "" →
      lookup_signal_docs repoSig "N.C.t" true none =
        lookup_signal_docs repoSig "N.C.t" false none) := by
  exact signal_short_amended repoSig "N.C.t" "One. Two." "" none (by decide)

/-- Two strings with the same character list are equal. -/
theorem strEq_of_data : ∀ {a b : String}, a.toList = b.toList → a = b
  | ⟨_⟩, ⟨_⟩, h => congrArg String.mk h

/-- `dictSet` writes its key and leaves every other key unchanged. -/
theorem dictGet_dictSet (k : String) (v : α) (k' : String) :
    ∀ d : List (String × α),
      dictGet (dictSet d k v) k' = if k = k' then some v else dictGet d k' := by
  intro d
  induction d with
  | nil =>
    by_cases h : k = k' <;> simp [dictSet, dictGet, h]
  | cons kv rest ih =>
    obtain ⟨k0, v0⟩ := kv
    by_cases h0 : k0 = k
    · rw [dictSet, if_pos h0]
      by_cases h1 : k = k'
      · rw [dictGet, if_pos h1, if_pos h1]
      · rw [dictGet, if_neg h1, if_neg h1, dictGet,
          if_neg (fun hh => h1 (h0.symm.trans hh))]
    · rw [dictSet, if_neg h0]
      by_cases h1 : k0 = k'
      · rw [dictGet, if_pos h1, if_neg (fun hh => h0 (h1.trans hh.symm)),
          dictGet, if_pos h1]
      · rw [dictGet, if_neg h1, ih]
        by_cases h2 : k = k'
        · rw [if_pos h2, if_pos h2]
        · rw [if_neg h2, if_neg h2, dictGet, if_neg h1]

/-- Unfolding one step of `dictUpdate`. -/
theorem dictUpdate_cons (d1 : List (String × α)) (k : String) (v : α)
    (rest : List (String × α)) :
    dictUpdate d1 ((k, v) :: rest) = dictUpdate (dictSet d1 k v) rest := rfl

/-- A key absent from the written map keeps its old binding. -/
theorem dictGet_dictUpdate_of_not_mem (k : String) :
    ∀ (d2 d1 : List (String × α)), k ∉ d2.map Prod.fst →
      dictGet (dictUpdate d1 d2) k = dictGet d1 k := by
  intro d2
  induction d2 with
  | nil => intro d1 _; rfl
  | cons kv rest ih =>
    intro d1 hk
    obtain ⟨k0, v0⟩ := kv
    simp only [List.map_cons, List.mem_cons] at hk
    push_neg at hk
    rw [dictUpdate_cons, ih (dictSet d1 k0 v0) hk.2, dictGet_dictSet,
      if_neg (fun hh => hk.1 hh.symm)]

/-- A key present in a written map with distinct keys ends bound to that
map's value, whatever it was bound to before. -/
theorem dictGet_dictUpdate_of_mem_nodup :
    ∀ (d2 d1 : List (String × α)) (k : String) (v : α),
      (d2.map Prod.fst).Nodup → dictGet d2 k = some v →
      dictGet (dictUpdate d1 d2) k = some v := by
  intro d2
  induction d2 with
  | nil => intro d1 k v _ h; simp [dictGet] at h
  | cons kv rest ih =>
    intro d1 k v hnd h
    obtain ⟨k0, v0⟩ := kv
    simp only [List.map_cons, List.nodup_cons] at hnd
    rw [dictUpdate_cons]
    rw [dictGet] at h
    by_cases h0 : k0 = k
    · rw [if_pos h0] at h
      obtain rfl : v0 = v := by injection h
      rw [dictGet_dictUpdate_of_not_mem k rest (dictSet d1 k0 v0)
        (h0 ▸ hnd.1), dictGet_dictSet, if_pos h0]
    · rw [if_neg h0] at h
      exact ih (dictSet d1 k0 v0) k v hnd.2 h

/-- C4: whatever keys were loaded, and in whatever order, every type-table
key the root namespace defines carries the root's value in the merged
TypeTable, because the root's map is overlaid last. -/
theorem root_types_win (get_ns : NsKey → GiNamespace) (root : GiNamespace)
    (loadedKeys : List NsKey) (k v : String)
    (hnd : (root.types.map Prod.fst).Nodup)
    (hv : dictGet root.types k = some v) :
    dictGet (merge_types get_ns root loadedKeys) k = some v :=
  dictGet_dictUpdate_of_mem_nodup root.types _ k v hnd hv

/-- Witness for C4 on the diamond store: the root's `T` beats `depB`'s
and `depD`'s. -/
theorem root_types_win_witness :
    dictGet (merge_types depsDiamond
      (GiNamespace.mk [("B", "1"), ("C", "1")] [("T", "root")])
      [("C", "1"), ("D", "1"), ("B", "1")]) "T" = some "root" :=
  root_types_win depsDiamond
    (GiNamespace.mk [("B", "1"), ("C", "1")] [("T", "root")])
    [("C", "1"), ("D", "1"), ("B", "1")] "T" "root" (by decide) (by decide)

/-- Totality of the code-point comparison. -/
theorem charsLe_total : ∀ x y : List Char, (charsLe x y || charsLe y x) = true := by
  intro x
  induction x with
  | nil => intro y; simp [charsLe]
  | cons a as ih =>
    intro y
    cases y with
    | nil => simp [charsLe]
    | cons b bs =>
      rw [charsLe, charsLe]
      by_cases h1 : a.toNat < b.toNat
      · rw [if_pos h1]
        simp
      · by_cases h2 : a.toNat = b.toNat
        · have h3 : ¬ b.toNat < a.toNat := by omega
          rw [if_neg h1, if_pos h2, if_neg h3, if_pos h2.symm]
          exact ih bs
        · have h3 : b.toNat < a.toNat := by omega
          rw [if_neg h1, if_neg h2, if_pos h3]
          simp

/-- Transitivity of the code-point comparison. -/
theorem charsLe_trans : ∀ x y z : List Char, charsLe x y = true →
    charsLe y z = true → charsLe x z = true := by
  intro x
  induction x with
  | nil => intro y z _ _; simp [charsLe]
  | cons a as ih =>
    intro y z hxy hyz
    cases y with
    | nil => simp [charsLe] at hxy
    | cons b bs =>
      cases z with
      | nil => simp [charsLe] at hyz
      | cons c cs =>
        rw [charsLe] at hxy hyz ⊢
        split_ifs at hxy hyz ⊢ <;>
          first
            | rfl
            | (exfalso; omega)
            | exact ih bs cs hxy hyz

/-- Totality of the Python tuple comparison. -/
theorem tupLe_total (a b : Int × String) : (tupLe a b || tupLe b a) = true := by
  obtain ⟨a1, a2⟩ := a
  obtain ⟨b1, b2⟩ := b
  rw [tupLe, tupLe, strLe, strLe]
  by_cases h1 : a1 < b1
  · simp [h1]
  · by_cases h2 : a1 = b1
    · subst h2
      have h4 := charsLe_total a2.toList b2.toList
      simp only [Bool.or_eq_true] at h4
      simp only [String.toList] at h4
      rcases h4 with h | h <;> simp [String.toList, h]
    · have h3 : b1 < a1 := by omega
      simp [h1, h2, h3]

/-- Transitivity of the Python tuple comparison. -/
theorem tupLe_trans (a b c : Int × String) (hab : tupLe a b = true)
    (hbc : tupLe b c = true) : tupLe a c = true := by
  rw [tupLe, strLe] at hab hbc ⊢
  simp only [Bool.or_eq_true, Bool.and_eq_true, decide_eq_true_eq]
    at hab hbc ⊢
  rcases hab with h1 | ⟨h1, h2⟩
  · rcases hbc with h3 | ⟨h3, h4⟩
    · left; omega
    · left; omega
  · rcases hbc with h3 | ⟨h3, h4⟩
    · left; omega
    · right; exact ⟨by omega, charsLe_trans _ _ _ h2 h4⟩

/-- Membership in an insertion. -/
theorem mem_insertSorted (le : α → α → Bool) (x : α) :
    ∀ (l : List α) (z : α), z ∈ insertSorted le x l ↔ z = x ∨ z ∈ l := by
  intro l
  induction l with
  | nil => intro z; simp [insertSorted]
  | cons y ys ih =>
    intro z
    rw [insertSorted]
    split
    · simp [List.mem_cons]
    · simp [List.mem_cons, ih]
      tauto

/-- Inserting into a `le`-sorted list keeps it sorted. -/
theorem pairwise_insertSorted (le : α → α → Bool)
    (htot : ∀ a b, (le a b || le b a) = true)
    (htrans : ∀ a b c, le a b = true → le b c = true → le a c = true)
    (x : α) : ∀ l : List α,
      l.Pairwise (fun a b => le a b = true) →
      (insertSorted le x l).Pairwise (fun a b => le a b = true) := by
  intro l
  induction l with
  | nil => intro _; simp [insertSorted]
  | cons y ys ih =>
    intro hp
    rw [List.pairwise_cons] at hp
    obtain ⟨hy, hys⟩ := hp
    rw [insertSorted]
    split
    case isTrue hle =>
      rw [List.pairwise_cons]
      refine ⟨?_, List.pairwise_cons.mpr ⟨hy, hys⟩⟩
      intro z hz
      rcases List.mem_cons.mp hz with rfl | hz'
      · exact hle
      · exact htrans x y z hle (hy z hz')
    case isFalse hle =>
      rw [List.pairwise_cons]
      refine ⟨?_, ih hys⟩
      intro z hz
      rcases (mem_insertSorted le x ys z).mp hz with hzx | hz'
      · rw [hzx]
        have h := htot x y
        simp only [Bool.or_eq_true] at h
        rcases h with h | h
        · exact absurd h hle
        · exact h
      · exact hy z hz'

/-- The model of Python `list.sort()` sorts. -/
theorem pairwise_pySort (le : α → α → Bool)
    (htot : ∀ a b, (le a b || le b a) = true)
    (htrans : ∀ a b c, le a b = true → le b c = true → le a c = true) :
    ∀ l : List α, (pySort le l).Pairwise (fun a b => le a b = true) := by
  intro l
  induction l with
  | nil => simp [pySort]
  | cons x xs ih => exact pairwise_insertSorted le htot htrans x _ ih

/-- Concatenation of a list of strings. -/
def strConcat : List String → String
  | [] => ""
  | x :: xs => x ++ strConcat xs

/-- An append-accumulating fold is the initial string followed by the
concatenation of the rendered pieces. -/
theorem foldl_append_eq_concat (f : α → String) :
    ∀ (l : List α) (init : String),
      l.foldl (fun c x => c ++ f x) init = init ++ strConcat (l.map f) := by
  intro l
  induction l with
  | nil =>
    intro init
    apply strEq_of_data
    simp [strConcat, strToList_append]
  | cons x xs ih =>
    intro init
    rw [List.foldl_cons, ih (init ++ f x), List.map_cons]
    apply strEq_of_data
    simp [strConcat, strToList_append, List.append_assoc]

/-- `tupLe` orders the integer components. -/
theorem tupLe_fst_le (a b : Int × String) (h : tupLe a b = true) :
    a.1 ≤ b.1 := by
  rw [tupLe] at h
  simp only [Bool.or_eq_true, Bool.and_eq_true, decide_eq_true_eq] at h
  rcases h with h | ⟨h, _⟩ <;> omega

/-- C6: for every enum/flag class other than the two GObject base types,
`parse_flags` is the class header, then the member lines of the non-escaped
instance members in ascending numeric order, then — strictly after all
member emission, never interleaved — one `setattr` rebinding line per
escaped member. -/
theorem parse_flags_structure (repo : Repo) (name : String) (obj : FlagsCls)
    (h : obj.isGBase = false) :
    parse_flags repo name obj =
      flags_header repo name obj ++
        strConcat ((pySort tupLe (flag_collect obj).2).map
          (flag_member_render repo name)) ++
        strConcat ((flag_collect obj).1.map (setattr_render obj.name)) ∧
    ((pySort tupLe (flag_collect obj).2).map Prod.fst).Pairwise (· ≤ ·) := by
  constructor
  · rw [parse_flags]
    simp only [h, Bool.false_eq_true, if_false]
    rw [foldl_append_eq_concat (flag_member_render repo name),
      foldl_append_eq_concat (setattr_render obj.name)]
  · have hp := pairwise_pySort tupLe tupLe_total tupLe_trans
      (flag_collect obj).2
    exact hp.map Prod.fst fun a b hab => tupLe_fst_le a b hab

/-- `getLast?` of a list with one element appended. -/
theorem getLast?_append_singleton (l : List α) (a : α) :
    (l ++ [a]).getLast? = some a := by
  simp

/-- `dropLast` of a list with one element appended. -/
theorem dropLast_append_singleton (l : List α) (a : α) :
    (l ++ [a]).dropLast = l := by
  simp

/-- Newly marking `key` as loaded shrinks the unloaded part of a duplicate-
free universe by exactly one. -/
theorem filter_drop_key_length (key : NsKey) (loaded : List NsKey) :
    ∀ univ : List NsKey, univ.Nodup → key ∈ univ → key ∉ loaded →
      (univ.filter (fun k => decide (k ∉ loaded ++ [key]))).length + 1 =
        (univ.filter (fun k => decide (k ∉ loaded))).length := by
  intro univ
  induction univ with
  | nil => intro _ h _; exact absurd h (List.not_mem_nil key)
  | cons a as ih =>
    intro hU hk hkl
    rw [List.nodup_cons] at hU
    rcases List.mem_cons.mp hk with rfl | hk'
    · rw [List.filter_cons, List.filter_cons]
      have h1 : decide (key ∉ loaded ++ [key]) = false := by simp
      have h2 : decide (key ∉ loaded) = true := by simp [hkl]
      rw [h1, h2]
      have h3 : List.filter (fun k => decide (k ∉ loaded ++ [key])) as =
          List.filter (fun k => decide (k ∉ loaded)) as := by
        apply List.filter_congr
        intro x hx
        have hxk : x ≠ key := fun h => hU.1 (h ▸ hx)
        simp [List.mem_append, hxk]
      rw [h3]
      simp
    · rw [List.filter_cons, List.filter_cons]
      have hane : a ≠ key := fun h => hU.1 (h ▸ hk')
      by_cases hal : a ∈ loaded
      · have h1 : decide (a ∉ loaded ++ [key]) = false := by
          simp [List.mem_append, hal]
        have h2 : decide (a ∉ loaded) = false := by simp [hal]
        rw [h1, h2]
        simp only [Bool.false_eq_true, if_false]
        exact ih hU.2 hk' hkl
      · have h1 : decide (a ∉ loaded ++ [key]) = true := by
          simp [List.mem_append, hal, hane]
        have h2 : decide (a ∉ loaded) = true := by simp [hal]
        rw [h1, h2]
        simp only [if_true, List.length_cons]
        rw [← ih hU.2 hk' hkl]

/-- C3: the dependency work-list traversal of `Repository.__init__`. Over a
duplicate-free universe `univ` of namespace keys closed under dependencies,
with every dependency list at most `maxD` long: starting from any visited
set and work list drawn from `univ`, within `|unvisited| * (maxD + 1) +
|work list|` iterations the loop terminates (the work list is exhausted and
the fuel bound never bites), the loaded list stays duplicate-free (each
distinct key is loaded at most once, and every work-list key is loaded, so
exactly once), and at most one load happens per distinct unvisited key. -/
theorem load_dependencies_terminates (get_ns : NsKey → GiNamespace)
    (univ : List NsKey) (maxD : Nat) (hU : univ.Nodup)
    (hdep : ∀ k ∈ univ, ∀ d ∈ (get_ns k).dependencies, d ∈ univ)
    (hlen : ∀ k ∈ univ, (get_ns k).dependencies.length ≤ maxD) :
    ∀ fuel loaded toLoad, loaded.Nodup → (∀ k ∈ toLoad, k ∈ univ) →
      (univ.filter (fun k => decide (k ∉ loaded))).length * (maxD + 1) +
        toLoad.length ≤ fuel →
      (load_dependencies get_ns fuel loaded toLoad).2 = [] ∧
      (load_dependencies get_ns fuel loaded toLoad).1.Nodup ∧
      (∀ k ∈ loaded, k ∈ (load_dependencies get_ns fuel loaded toLoad).1) ∧
      (∀ k ∈ toLoad, k ∈ (load_dependencies get_ns fuel loaded toLoad).1) ∧
      (load_dependencies get_ns fuel loaded toLoad).1.length ≤
        loaded.length +
          (univ.filter (fun k => decide (k ∉ loaded))).length := by
  intro fuel
  induction fuel with
  | zero =>
    intro loaded toLoad hnd hsub hfuel
    have hto : toLoad = [] := by
      cases toLoad with
      | nil => rfl
      | cons a as =>
        exfalso
        rw [List.length_cons] at hfuel
        omega
    subst hto
    exact ⟨rfl, hnd, fun k hk => hk,
      fun k hk => absurd hk (List.not_mem_nil k), Nat.le_add_right _ _⟩
  | succ fuel ih =>
    intro loaded toLoad hnd hsub hfuel
    rcases List.eq_nil_or_concat toLoad with rfl | ⟨rest, key, rfl⟩
    · exact ⟨rfl, hnd, fun k hk => hk,
        fun k hk => absurd hk (List.not_mem_nil k), Nat.le_add_right _ _⟩
    · simp only [List.concat_eq_append] at hsub hfuel ⊢
      have hkeyU : key ∈ univ := hsub key (by simp)
      by_cases hkl : key ∈ loaded
      · have h1 : load_dependencies get_ns (fuel + 1) loaded (rest ++ [key]) =
            load_dependencies get_ns fuel loaded rest := by
          rw [load_dependencies, getLast?_append_singleton,
            dropLast_append_singleton]
          simp [hkl]
        rw [h1]
        have hres := ih loaded rest hnd
          (fun k hk => hsub k (by simp [hk]))
          (by rw [List.length_append, List.length_singleton] at hfuel; omega)
        refine ⟨hres.1, hres.2.1, hres.2.2.1, ?_, hres.2.2.2.2⟩
        intro k hk
        rcases List.mem_append.mp hk with hk | hk
        · exact hres.2.2.2.1 k hk
        · rw [List.mem_singleton.mp hk]
          exact hres.2.2.1 key hkl
      · have h1 : load_dependencies get_ns (fuel + 1) loaded (rest ++ [key]) =
            load_dependencies get_ns fuel (loaded ++ [key])
              (rest ++ (get_ns key).dependencies) := by
          rw [load_dependencies, getLast?_append_singleton,
            dropLast_append_singleton]
          simp [hkl]
        rw [h1]
        have hnd' : (loaded ++ [key]).Nodup := by
          rw [List.nodup_append]
          exact ⟨hnd, List.nodup_singleton key,
            by simp [List.disjoint_singleton, hkl]⟩
        have hsub' : ∀ k ∈ rest ++ (get_ns key).dependencies, k ∈ univ := by
          intro k hk
          rcases List.mem_append.mp hk with hk | hk
          · exact hsub k (by simp [hk])
          · exact hdep key hkeyU k hk
        have hfilter := filter_drop_key_length key loaded univ hU hkeyU hkl
        have hfuel' : (univ.filter
            (fun k => decide (k ∉ loaded ++ [key]))).length * (maxD + 1) +
            (rest ++ (get_ns key).dependencies).length ≤ fuel := by
          have hd := hlen key hkeyU
          rw [List.length_append] at hfuel ⊢
          have hx : ((univ.filter
              (fun k => decide (k ∉ loaded ++ [key]))).length + 1) *
              (maxD + 1) =
              (univ.filter (fun k => decide (k ∉ loaded))).length *
                (maxD + 1) := by rw [hfilter]
          rw [Nat.succ_mul] at hx
          omega
        have hres := ih (loaded ++ [key])
          (rest ++ (get_ns key).dependencies) hnd' hsub' hfuel'
        refine ⟨hres.1, hres.2.1, ?_, ?_, ?_⟩
        · intro k hk
          exact hres.2.2.1 k (by simp [hk])
        · intro k hk
          rcases List.mem_append.mp hk with hk | hk
          · exact hres.2.2.2.1 k (by simp [hk])
          · rw [List.mem_singleton.mp hk]
            exact hres.2.2.1 key (by simp)
        · have hl := hres.2.2.2.2
          rw [List.length_append, List.length_singleton] at hl
          omega

/-- Witness for C3 on the diamond dependency store (`B` and `C` both depend
on `D`): each of the three keys is loaded exactly once, the work list is
exhausted, and the load count is bounded by the universe size. -/
theorem load_dependencies_terminates_witness :
    (load_dependencies depsDiamond 8 [] [("B", "1"), ("C", "1")]).2 = [] ∧
    (load_dependencies depsDiamond 8 [] [("B", "1"), ("C", "1")]).1.Nodup ∧
    (∀ k ∈ ([] : List NsKey),
      k ∈ (load_dependencies depsDiamond 8 [] [("B", "1"), ("C", "1")]).1) ∧
    (∀ k ∈ [(("B", "1") : NsKey), ("C", "1")],
      k ∈ (load_dependencies depsDiamond 8 [] [("B", "1"), ("C", "1")]).1) ∧
    (load_dependencies depsDiamond 8 [] [("B", "1"), ("C", "1")]).1.length ≤
      ([] : List NsKey).length +
        (([("B", "1"), ("C", "1"), ("D", "1")] : List NsKey).filter
          (fun k => decide (k ∉ ([] : List NsKey)))).length :=
  load_dependencies_terminates depsDiamond
    [("B", "1"), ("C", "1"), ("D", "1")] 1 (by decide) (by decide)
    (by decide) 8 [] [("B", "1"), ("C", "1")] (by decide) (by decide)
    (by decide)

/-- Witness for C6 at the spec's §8 example (`A` escaped with true value 2
under `_A`, `B = 2`): members in ascending order, the `setattr` rebinding
last. -/
theorem parse_flags_structure_witness :
    parse_flags repo0 "NS.F" flagsEx =
      flags_header repo0 "NS.F" flagsEx ++
        strConcat ((pySort tupLe (flag_collect flagsEx).2).map
          (flag_member_render repo0 "NS.F")) ++
        strConcat ((flag_collect flagsEx).1.map
          (setattr_render flagsEx.name)) ∧
    ((pySort tupLe (flag_collect flagsEx).2).map Prod.fst).Pairwise
      (· ≤ ·) :=
  parse_flags_structure repo0 "NS.F" flagsEx rfl

end Pgi
